import Mathlib

/-!
Verification of the `study_tracker` core data model
(`src/study_timer/src/data.rs`) against its specification.

Modelling conventions, chosen once for the whole development:
* Rust `f64` duration values are modelled as `ℚ`.  Every arithmetic the
  code performs on them is addition and comparison in call order, so the
  rational model follows the source operation-for-operation.
* Rust `u64` / `u32` integers are modelled as `Nat` (id values only ever
  grow by one from values read out of the store; overflow is unreachable
  for the properties considered here).
* The clock collaborator (`Local::now()`) is passed explicitly: mutating
  constructors receive the timestamp string `now`, and the date-window
  query receives `today` as a parsed calendar date.
* The file-save collaborator is modelled by a `Bool` in each operation's
  result that records whether `self.save()` was invoked.
-/

set_option autoImplicit false

namespace StudyTracker

/-- `StudySession` from data.rs: date string, duration, optional note. -/
structure StudySession where
  date : String
  minutes : ℚ
  description : Option String
  deriving Repr, DecidableEq

/-- `Todo` from data.rs. -/
structure Todo where
  id : Nat
  text : String
  completed : Bool
  created_at : String
  deriving Repr, DecidableEq

/-- `NotificationPeriod` from data.rs: three unit variants and a custom day count. -/
inductive NotificationPeriod where
  | OneDay
  | ThreeDays
  | OneWeek
  | Custom (days : Nat)
  deriving Repr, DecidableEq

/-- `Reminder` from data.rs. -/
structure Reminder where
  id : Nat
  title : String
  description : Option String
  due_date : String
  created_at : String
  notification_periods : List NotificationPeriod
  is_completed : Bool
  deriving Repr, DecidableEq

/-- `StudyData` from data.rs: the aggregate root holding the three collections. -/
structure StudyData where
  sessions : List StudySession
  todos : List Todo
  reminders : List Reminder
  deriving Repr, DecidableEq

/-- The empty store produced by `StudyData::load` when no backing file exists. -/
def emptyStudyData : StudyData := ⟨[], [], []⟩

/-- The session-merge key test of `add_session`: same `date` string and the
same `Option`-valued `description`.  In the source this appears as two
branches (`description.as_ref() == Some(d)` for a present description,
`description.is_none()` for an absent one); both are equality of the
`Option String` values. -/
def sessionMatches (date : String) (descr : Option String) (x : StudySession) : Bool :=
  x.date == date && x.description == descr

/-- The loop of `add_session` past the non-positive guard: add `minutes` to
the first session matching on `(date, description)`, or push a new session
at the end when none matches. -/
def addSessionList (date : String) (minutes : ℚ) (descr : Option String) :
    List StudySession → List StudySession
  | [] => [⟨date, minutes, descr⟩]
  | x :: xs =>
    if sessionMatches date descr x then
      { x with minutes := x.minutes + minutes } :: xs
    else
      x :: addSessionList date minutes descr xs

namespace StudyData

/-- `StudyData::add_session`.  Returns the new store and whether `save` ran:
the `minutes <= 0.0` guard returns early before any mutation or save. -/
def add_session (s : StudyData) (date : String) (minutes : ℚ)
    (description : Option String) : StudyData × Bool :=
  if minutes ≤ 0 then (s, false)
  else ({ s with sessions := addSessionList date minutes description s.sessions }, true)

/-- `StudyData::get_total_minutes`: iterator sum of `minutes` over all sessions. -/
def get_total_minutes (s : StudyData) : ℚ :=
  s.sessions.foldl (fun acc x => acc + x.minutes) 0

end StudyData

/-- A sequence of `add_session` calls sharing one `(date, description)` key,
applied in order. -/
def foldAddSession (date : String) (descr : Option String) (s : StudyData) (ms : List ℚ) :
    StudyData :=
  ms.foldl (fun t m => (t.add_session date m descr).1) s

/-- The id-assignment rule shared by `get_next_todo_id` and
`get_next_reminder_id`: `max + 1` over the ids when any exist, `1` otherwise. -/
def nextId (ids : List Nat) : Nat :=
  match ids.max? with
  | some m => m + 1
  | none => 1

/-- `iter_mut().find(p)` followed by a mutation `f` of the found element:
rewrites the first element satisfying `p` and reports the rewritten element. -/
def modifyFirst {α : Type} (p : α → Bool) (f : α → α) : List α → List α × Option α
  | [] => ([], none)
  | x :: xs =>
    if p x then (f x :: xs, some (f x))
    else
      let r := modifyFirst p f xs
      (x :: r.1, r.2)

namespace StudyData

/-- `StudyData::get_next_todo_id`. -/
def get_next_todo_id (s : StudyData) : Nat :=
  nextId (s.todos.map (·.id))

/-- `StudyData::add_todo`; `now` is the formatted current timestamp. -/
def add_todo (s : StudyData) (text : String) (now : String) : StudyData × Bool :=
  ({ s with todos := s.todos ++ [⟨s.get_next_todo_id, text, false, now⟩] }, true)

/-- `StudyData::toggle_todo`: flip `completed` on the first id match; the
returned `Bool`s are the reported completion state and the save flag
(`save` runs unconditionally). -/
def toggle_todo (s : StudyData) (id : Nat) : StudyData × Bool × Bool :=
  let r := modifyFirst (fun t => t.id == id) (fun t => { t with completed := !t.completed })
    s.todos
  ({ s with todos := r.1 }, (r.2.map (·.completed)).getD false, true)

/-- `StudyData::update_todo_text`: replace `text` on the first id match;
`save` runs only inside the match. -/
def update_todo_text (s : StudyData) (id : Nat) (text : String) : StudyData × Bool :=
  let r := modifyFirst (fun t => t.id == id) (fun t => { t with text := text }) s.todos
  ({ s with todos := r.1 }, r.2.isSome)

/-- `StudyData::delete_todo`: `retain(|t| t.id != id)`. -/
def delete_todo (s : StudyData) (id : Nat) : StudyData × Bool :=
  ({ s with todos := s.todos.filter (fun t => t.id != id) }, true)

/-- `StudyData::clear_todos`. -/
def clear_todos (s : StudyData) : StudyData × Bool :=
  ({ s with todos := [] }, true)

/-- `StudyData::clear_completed_todos`: `retain(|t| !t.completed)`. -/
def clear_completed_todos (s : StudyData) : StudyData × Bool :=
  ({ s with todos := s.todos.filter (fun t => !t.completed) }, true)

/-- `StudyData::get_next_reminder_id`. -/
def get_next_reminder_id (s : StudyData) : Nat :=
  nextId (s.reminders.map (·.id))

/-- `StudyData::add_reminder`; `now` is the formatted current timestamp. -/
def add_reminder (s : StudyData) (title : String) (description : Option String)
    (due_date : String) (notification_periods : List NotificationPeriod)
    (now : String) : StudyData × Bool :=
  ({ s with reminders := s.reminders ++
      [⟨s.get_next_reminder_id, title, description, due_date, now,
        notification_periods, false⟩] }, true)

/-- `StudyData::update_reminder`: replace the four caller-supplied fields on
the first id match; `save` runs only inside the match. -/
def update_reminder (s : StudyData) (id : Nat) (title : String)
    (description : Option String) (due_date : String)
    (notification_periods : List NotificationPeriod) : StudyData × Bool :=
  let r := modifyFirst (fun x => x.id == id)
    (fun x => { x with title := title, description := description,
                       due_date := due_date,
                       notification_periods := notification_periods }) s.reminders
  ({ s with reminders := r.1 }, r.2.isSome)

/-- `StudyData::toggle_reminder`: flip `is_completed` on the first id match. -/
def toggle_reminder (s : StudyData) (id : Nat) : StudyData × Bool × Bool :=
  let r := modifyFirst (fun x => x.id == id)
    (fun x => { x with is_completed := !x.is_completed }) s.reminders
  ({ s with reminders := r.1 }, (r.2.map (·.is_completed)).getD false, true)

/-- `StudyData::delete_reminder`: `retain(|r| r.id != id)`. -/
def delete_reminder (s : StudyData) (id : Nat) : StudyData × Bool :=
  ({ s with reminders := s.reminders.filter (fun x => x.id != id) }, true)

/-- `StudyData::clear_reminders`. -/
def clear_reminders (s : StudyData) : StudyData × Bool :=
  ({ s with reminders := [] }, true)

/-- `StudyData::clear_completed_reminders`: `retain(|r| !r.is_completed)`. -/
def clear_completed_reminders (s : StudyData) : StudyData × Bool :=
  ({ s with reminders := s.reminders.filter (fun x => !x.is_completed) }, true)

end StudyData

/-- Minutes accumulated in the sessions that match a given `(date, description)` key. -/
def keyMinutes (date : String) (descr : Option String) (l : List StudySession) : ℚ :=
  ((l.filter (sessionMatches date descr)).map (·.minutes)).sum

/-- Number of stored sessions matching a given `(date, description)` key. -/
def keyCount (date : String) (descr : Option String) (l : List StudySession) : Nat :=
  l.countP (sessionMatches date descr)

/-- A proleptic Gregorian calendar date, the model of `chrono::NaiveDate`. -/
structure Date where
  year : Int
  month : Nat
  day : Nat
  deriving Repr, DecidableEq

/-- Gregorian leap-year rule. -/
def isLeapYear (y : Int) : Bool :=
  (y % 4 == 0 && y % 100 != 0) || y % 400 == 0

/-- Number of days in a month of the proleptic Gregorian calendar. -/
def daysInMonth (y : Int) (m : Nat) : Nat :=
  match m with
  | 1 => 31
  | 2 => if isLeapYear y then 29 else 28
  | 3 => 31
  | 4 => 30
  | 5 => 31
  | 6 => 30
  | 7 => 31
  | 8 => 31
  | 9 => 30
  | 10 => 31
  | 11 => 30
  | 12 => 31
  | _ => 0

/-- Greedy digit scan: the leading run of ASCII digits and the rest. -/
def takeDigits (cs : List Char) : List Char × List Char :=
  (cs.takeWhile (·.isDigit), cs.dropWhile (·.isDigit))

/-- Numeric value of a digit run. -/
def digitsToNat (ds : List Char) : Nat :=
  ds.foldl (fun acc c => acc * 10 + (c.toNat - 48)) 0

/-- Model of `NaiveDate::parse_from_str(s, "%Y-%m-%d")`: an optionally signed
year, a 1–2 digit month, a 1–2 digit day, separated by `-` with no trailing
input, subject to calendar validity. -/
def parseDate (s : String) : Option Date :=
  let cs := s.toList
  let signAndRest : Bool × List Char :=
    match cs with
    | '-' :: rest => (true, rest)
    | '+' :: rest => (false, rest)
    | _ => (false, cs)
  let neg := signAndRest.1
  let p1 := takeDigits signAndRest.2
  if p1.1.isEmpty then none
  else
    match p1.2 with
    | '-' :: cs2 =>
      let p2 := takeDigits cs2
      if p2.1.isEmpty || 2 < p2.1.length then none
      else
        match p2.2 with
        | '-' :: cs3 =>
          let p3 := takeDigits cs3
          if p3.1.isEmpty || 2 < p3.1.length || !p3.2.isEmpty then none
          else
            let y : Int := if neg then -(digitsToNat p1.1 : Int) else (digitsToNat p1.1 : Int)
            let m := digitsToNat p2.1
            let d := digitsToNat p3.1
            if 1 ≤ m && m ≤ 12 && 1 ≤ d && d ≤ daysInMonth y m then some ⟨y, m, d⟩
            else none
        | _ => none
    | _ => none

/-- Day number of a calendar date (days since 1970-01-01, negative before);
`chrono`'s `NaiveDate` subtraction reports exactly the difference of these
day numbers via `num_days`. -/
def daysFromCivil (dt : Date) : Int :=
  let y : Int := if dt.month ≤ 2 then dt.year - 1 else dt.year
  let era : Int := y / 400
  let yoe : Int := y - era * 400
  let mp : Int := (dt.month : Int) + (if 2 < dt.month then -3 else 9)
  let doy : Int := (153 * mp + 2) / 5 + (dt.day : Int) - 1
  let doe : Int := yoe * 365 + yoe / 4 - yoe / 100 + doy
  era * 146097 + doe - 719468

namespace StudyData

/-- `StudyData::get_last_n_days_minutes`; `today` stands for
`Local::now().date_naive()` and the comparison is the source's
`(today - date).num_days() < days`. -/
def get_last_n_days_minutes (s : StudyData) (today : Date) (days : Int) : ℚ :=
  (s.sessions.filterMap (fun x =>
    match parseDate x.date with
    | some d => if daysFromCivil today - daysFromCivil d < days then some x.minutes else none
    | none => none)).sum

end StudyData

/-- Structured JSON values, the model of `serde_json::Value` for the backing
store.  Integer and floating numbers are kept apart, as in `serde_json`'s
`Number`. -/
inductive Json where
  | null
  | jbool (b : Bool)
  | jint (n : Nat)
  | jnum (q : ℚ)
  | jstr (s : String)
  | jarr (items : List Json)
  | jobj (fields : List (String × Json))

/-- Field access in a JSON object: first binding with the given name. -/
def getField : Json → String → Option Json
  | Json.jobj fields, name => fields.lookup name
  | _, _ => none

/-- Modelled from the spec: `serde` represents a missing optional field as an
explicit absent marker (`null`), not omission. -/
def encodeOptStr : Option String → Json
  | none => Json.null
  | some s => Json.jstr s

/-- Inverse of `encodeOptStr`. -/
def decodeOptStr : Json → Option (Option String)
  | Json.null => some none
  | Json.jstr s => some (some s)
  | _ => none

/-- Modelled from the spec: serialization of one session record with
human-readable field names, as produced by the derived `Serialize`
implementation that `StudyData::save` delegates to (that derived code is not
part of this repository's sources). -/
def encodeStudySession (x : StudySession) : Json :=
  Json.jobj [("date", Json.jstr x.date), ("minutes", Json.jnum x.minutes),
    ("description", encodeOptStr x.description)]

/-- Modelled from the spec: deserialization of one session record, as
performed by the derived `Deserialize` implementation `StudyData::load`
delegates to. -/
def decodeStudySession (j : Json) : Option StudySession :=
  match getField j "date", getField j "minutes", getField j "description" with
  | some (Json.jstr d), some (Json.jnum m), some dj =>
    match decodeOptStr dj with
    | some descr => some ⟨d, m, descr⟩
    | none => none
  | _, _, _ => none

/-- Modelled from the spec: `notification_periods` entries are tagged
variants — three zero-argument tags and one single-argument tag carrying a
day count (serde's externally tagged enum representation). -/
def encodeNotificationPeriod : NotificationPeriod → Json
  | NotificationPeriod.OneDay => Json.jstr "OneDay"
  | NotificationPeriod.ThreeDays => Json.jstr "ThreeDays"
  | NotificationPeriod.OneWeek => Json.jstr "OneWeek"
  | NotificationPeriod.Custom n => Json.jobj [("Custom", Json.jint n)]

/-- Inverse of `encodeNotificationPeriod`. -/
def decodeNotificationPeriod : Json → Option NotificationPeriod
  | Json.jstr s =>
    if s = "OneDay" then some NotificationPeriod.OneDay
    else if s = "ThreeDays" then some NotificationPeriod.ThreeDays
    else if s = "OneWeek" then some NotificationPeriod.OneWeek
    else none
  | Json.jobj [("Custom", Json.jint n)] => some (NotificationPeriod.Custom n)
  | _ => none

/-- Element-wise decoding of a JSON array body. -/
def decodeListWith {α : Type} (dec : Json → Option α) : List Json → Option (List α)
  | [] => some []
  | j :: js =>
    match dec j, decodeListWith dec js with
    | some a, some rest => some (a :: rest)
    | _, _ => none

/-- Modelled from the spec: serialization of one Todo record. -/
def encodeTodo (t : Todo) : Json :=
  Json.jobj [("id", Json.jint t.id), ("text", Json.jstr t.text),
    ("completed", Json.jbool t.completed), ("created_at", Json.jstr t.created_at)]

/-- Modelled from the spec: deserialization of one Todo record. -/
def decodeTodo (j : Json) : Option Todo :=
  match getField j "id", getField j "text", getField j "completed",
      getField j "created_at" with
  | some (Json.jint i), some (Json.jstr tx), some (Json.jbool c), some (Json.jstr ca) =>
    some ⟨i, tx, c, ca⟩
  | _, _, _, _ => none

/-- Modelled from the spec: serialization of one Reminder record. -/
def encodeReminder (r : Reminder) : Json :=
  Json.jobj [("id", Json.jint r.id), ("title", Json.jstr r.title),
    ("description", encodeOptStr r.description),
    ("due_date", Json.jstr r.due_date),
    ("created_at", Json.jstr r.created_at),
    ("notification_periods", Json.jarr (r.notification_periods.map encodeNotificationPeriod)),
    ("is_completed", Json.jbool r.is_completed)]

/-- Modelled from the spec: deserialization of one Reminder record. -/
def decodeReminder (j : Json) : Option Reminder :=
  match getField j "id", getField j "title", getField j "description",
      getField j "due_date", getField j "created_at",
      getField j "notification_periods", getField j "is_completed" with
  | some (Json.jint i), some (Json.jstr ti), some dj, some (Json.jstr dd),
      some (Json.jstr ca), some (Json.jarr nps), some (Json.jbool ic) =>
    match decodeOptStr dj, decodeListWith decodeNotificationPeriod nps with
    | some descr, some ps => some ⟨i, ti, descr, dd, ca, ps, ic⟩
    | _, _ => none
  | _, _, _, _, _, _, _ => none

/-- Modelled from the spec: `StudyData::save` serializes the whole store as
one structured-text resource with three named sequences. -/
def encodeStudyData (s : StudyData) : Json :=
  Json.jobj [("sessions", Json.jarr (s.sessions.map encodeStudySession)),
    ("todos", Json.jarr (s.todos.map encodeTodo)),
    ("reminders", Json.jarr (s.reminders.map encodeReminder))]

/-- Modelled from the spec: `StudyData::load` deserializes the whole store
from the backing resource. -/
def decodeStudyData (j : Json) : Option StudyData :=
  match getField j "sessions", getField j "todos", getField j "reminders" with
  | some (Json.jarr ss), some (Json.jarr ts), some (Json.jarr rs) =>
    match decodeListWith decodeStudySession ss, decodeListWith decodeTodo ts,
        decodeListWith decodeReminder rs with
    | some a, some b, some c => some ⟨a, b, c⟩
    | _, _, _ => none
  | _, _, _ => none

/-- The per-collection id-uniqueness invariant of the store. -/
def IdInvariant (s : StudyData) : Prop :=
  (s.todos.map (·.id)).Nodup ∧ (s.reminders.map (·.id)).Nodup

theorem sessionMatches_self (date : String) (descr : Option String) (m : ℚ) :
    sessionMatches date descr ⟨date, m, descr⟩ = true := by
  simp [sessionMatches]

theorem keyCount_addSessionList (date : String) (descr : Option String) (m : ℚ)
    (l : List StudySession) :
    keyCount date descr (addSessionList date m descr l) =
      if keyCount date descr l = 0 then 1 else keyCount date descr l := by
  induction l with
  | nil => simp [addSessionList, keyCount, sessionMatches_self]
  | cons x xs ih =>
    by_cases hx : sessionMatches date descr x
    · have hx' : sessionMatches date descr { x with minutes := x.minutes + m } = true := by
        simpa [sessionMatches] using hx
      simp [addSessionList, hx, keyCount, List.countP_cons, hx']
    · simp only [addSessionList, hx, if_neg, Bool.false_eq_true, not_false_eq_true]
      simp [keyCount, List.countP_cons, hx] at ih ⊢
      exact ih

theorem keyMinutes_addSessionList (date : String) (descr : Option String) (m : ℚ)
    (l : List StudySession) :
    keyMinutes date descr (addSessionList date m descr l) =
      keyMinutes date descr l + m := by
  induction l with
  | nil => simp [addSessionList, keyMinutes, sessionMatches_self]
  | cons x xs ih =>
    by_cases hx : sessionMatches date descr x
    · have hx' : sessionMatches date descr { x with minutes := x.minutes + m } = true := by
        simpa [sessionMatches] using hx
      simp [addSessionList, hx, keyMinutes, hx']
      ring
    · simp only [addSessionList, hx, Bool.false_eq_true, if_false]
      simp only [keyMinutes, List.filter_cons, hx, Bool.false_eq_true, if_false] at ih ⊢
      exact ih

theorem keyMinutes_of_keyCount_zero (date : String) (descr : Option String)
    (l : List StudySession) (h : keyCount date descr l = 0) :
    keyMinutes date descr l = 0 := by
  have : l.filter (sessionMatches date descr) = [] := by
    simpa [keyCount, List.countP_eq_length_filter, List.length_eq_zero] using h
  simp [keyMinutes, this]

theorem foldAddSession_of_keyCount_one (date : String) (descr : Option String)
    (ms : List ℚ) :
    ∀ s : StudyData, keyCount date descr s.sessions = 1 →
      keyCount date descr (foldAddSession date descr s ms).sessions = 1 ∧
      keyMinutes date descr (foldAddSession date descr s ms).sessions =
        keyMinutes date descr s.sessions + (ms.filter (fun m => decide (0 < m))).sum := by
  induction ms with
  | nil => intro s h; simp [foldAddSession, h]
  | cons m ms ih =>
    intro s h
    by_cases hm : m ≤ 0
    · have hnot : ¬(0 : ℚ) < m := not_lt.mpr hm
      have hstep : (s.add_session date m descr).1 = s := by
        simp [StudyData.add_session, hm]
      have := ih s h
      simpa [foldAddSession, hstep, hnot] using this
    · have hpos : (0 : ℚ) < m := lt_of_not_le hm
      have hstep : (s.add_session date m descr).1 =
          { s with sessions := addSessionList date m descr s.sessions } := by
        simp [StudyData.add_session, hm]
      have hcnt : keyCount date descr (addSessionList date m descr s.sessions) = 1 := by
        rw [keyCount_addSessionList]; simp [h]
      have hsum := keyMinutes_addSessionList date descr m s.sessions
      have := ih { s with sessions := addSessionList date m descr s.sessions } hcnt
      refine ⟨?_, ?_⟩
      · simpa [foldAddSession, hstep] using this.1
      · have h2 := this.2
        simp only [foldAddSession, List.foldl_cons, hstep] at h2 ⊢
        rw [h2, hsum]
        simp [hpos]
        ring

theorem foldAddSession_of_keyCount_zero (date : String) (descr : Option String)
    (ms : List ℚ) :
    ∀ s : StudyData, keyCount date descr s.sessions = 0 →
      keyCount date descr (foldAddSession date descr s ms).sessions =
        (if ms.any (fun m => decide (0 < m)) then 1 else 0) ∧
      keyMinutes date descr (foldAddSession date descr s ms).sessions =
        (ms.filter (fun m => decide (0 < m))).sum := by
  induction ms with
  | nil =>
    intro s h
    exact ⟨by simpa [foldAddSession] using h,
      by simpa [foldAddSession] using keyMinutes_of_keyCount_zero date descr s.sessions h⟩
  | cons m ms ih =>
    intro s h
    by_cases hm : m ≤ 0
    · have hnot : ¬(0 : ℚ) < m := not_lt.mpr hm
      have hstep : (s.add_session date m descr).1 = s := by
        simp [StudyData.add_session, hm]
      have := ih s h
      simpa [foldAddSession, hstep, hnot] using this
    · have hpos : (0 : ℚ) < m := lt_of_not_le hm
      have hstep : (s.add_session date m descr).1 =
          { s with sessions := addSessionList date m descr s.sessions } := by
        simp [StudyData.add_session, hm]
      have hcnt : keyCount date descr (addSessionList date m descr s.sessions) = 1 := by
        rw [keyCount_addSessionList]; simp [h]
      have hsum := keyMinutes_addSessionList date descr m s.sessions
      have h0 := keyMinutes_of_keyCount_zero date descr s.sessions h
      have := foldAddSession_of_keyCount_one date descr ms
        { s with sessions := addSessionList date m descr s.sessions } hcnt
      refine ⟨?_, ?_⟩
      · simp only [foldAddSession, List.foldl_cons, hstep]
        simpa [hpos] using this.1
      · have h2 := this.2
        simp only [foldAddSession, List.foldl_cons, hstep] at h2 ⊢
        rw [h2, hsum, h0]
        simp [hpos]

theorem addSessionList_some_keeps_none (date d : String) (m : ℚ)
    (l : List StudySession) :
    (addSessionList date m (some d) l).filter
        (fun y => y.description == (none : Option String)) =
      l.filter (fun y => y.description == (none : Option String)) := by
  induction l with
  | nil => simp [addSessionList]
  | cons x xs ih =>
    by_cases hx : sessionMatches date (some d) x
    · have hdescr : x.description = some d := by
        simp [sessionMatches] at hx
        exact hx.2
      simp [addSessionList, hx, List.filter_cons, hdescr]
    · simp [addSessionList, hx, List.filter_cons, ih]

theorem addSessionList_none_keeps_some (date : String) (m : ℚ)
    (l : List StudySession) :
    (addSessionList date m none l).filter (fun y => y.description.isSome) =
      l.filter (fun y => y.description.isSome) := by
  induction l with
  | nil => simp [addSessionList]
  | cons x xs ih =>
    by_cases hx : sessionMatches date none x
    · have hdescr : x.description = none := by
        simp [sessionMatches] at hx
        exact hx.2
      simp [addSessionList, hx, List.filter_cons, hdescr]
    · simp [addSessionList, hx, List.filter_cons, ih]

/-- C1: over any sequence of `add_session` calls sharing a `(date, description)`
key, starting from a store with no session for that key, the store ends with
exactly one session for that key when some contribution is positive (none
otherwise), and the minutes recorded under that key equal the sum of the
positive contributions; moreover a call with a present description never
touches the description-less sessions, and a call with an absent description
never touches the sessions that carry a description. -/
theorem C1_add_session_merge (date : String) (descr : Option String)
    (s : StudyData) (ms : List ℚ)
    (h : keyCount date descr s.sessions = 0) :
    (keyCount date descr (foldAddSession date descr s ms).sessions =
        (if ms.any (fun m => decide (0 < m)) then 1 else 0) ∧
      keyMinutes date descr (foldAddSession date descr s ms).sessions =
        (ms.filter (fun m => decide (0 < m))).sum) ∧
    (∀ (d : String) (m : ℚ) (x : String) (t : StudyData),
      ((t.add_session d m (some x)).1.sessions.filter
          (fun y => y.description == (none : Option String)) =
        t.sessions.filter (fun y => y.description == (none : Option String))) ∧
      ((t.add_session d m (none : Option String)).1.sessions.filter
          (fun y => y.description.isSome) =
        t.sessions.filter (fun y => y.description.isSome))) := by
  refine ⟨foldAddSession_of_keyCount_zero date descr ms s h, ?_⟩
  intro d m x t
  constructor
  · by_cases hm : m ≤ 0
    · simp [StudyData.add_session, hm]
    · simp [StudyData.add_session, hm, addSessionList_some_keeps_none]
  · by_cases hm : m ≤ 0
    · simp [StudyData.add_session, hm]
    · simp [StudyData.add_session, hm, addSessionList_none_keeps_some]

/-- Witness for C1: two calls on the empty store with the same date and no
description leave exactly one session holding 30 + 15 = 45 minutes. -/
theorem C1_add_session_merge_witness :
    keyCount "2024-01-01" none emptyStudyData.sessions = 0 ∧
    keyCount "2024-01-01" none
      (foldAddSession "2024-01-01" none emptyStudyData [30, 15]).sessions = 1 ∧
    keyMinutes "2024-01-01" none
      (foldAddSession "2024-01-01" none emptyStudyData [30, 15]).sessions = 45 := by
  have h0 : keyCount "2024-01-01" none emptyStudyData.sessions = 0 := by decide
  have h := (C1_add_session_merge "2024-01-01" none emptyStudyData [30, 15] h0).1
  refine ⟨h0, ?_, ?_⟩
  · rw [h.1]; decide
  · rw [h.2]; norm_num

/-- C3: `add_session` with non-positive minutes returns success, leaves the
whole store unchanged, and does not invoke `save`. -/
theorem C3_nonpositive_minutes_noop (s : StudyData) (date : String) (m : ℚ)
    (descr : Option String) (h : m ≤ 0) :
    s.add_session date m descr = (s, false) := by
  simp [StudyData.add_session, h]

/-- Witness for C3 at minutes = 0 on a non-empty store. -/
theorem C3_nonpositive_minutes_noop_witness :
    (0 : ℚ) ≤ 0 ∧
    StudyData.add_session ⟨[⟨"2024-01-01", 5, none⟩], [], []⟩ "2024-01-02" 0 none =
      (⟨[⟨"2024-01-01", 5, none⟩], [], []⟩, false) :=
  ⟨le_refl 0, C3_nonpositive_minutes_noop _ "2024-01-02" 0 none (le_refl 0)⟩

/-- C9: `get_total_minutes` is the sum of `minutes` over all stored sessions,
with no condition on the sessions' date strings. -/
theorem C9_total_minutes_sum (s : StudyData) :
    s.get_total_minutes = (s.sessions.map (·.minutes)).sum := by
  rw [StudyData.get_total_minutes, List.sum_eq_foldl, List.foldl_map]

theorem lt_nextId (ids : List Nat) : ∀ i ∈ ids, i < nextId ids := by
  intro i hi
  cases h : ids.max? with
  | none =>
    rw [List.max?_eq_none_iff] at h
    simp [h] at hi
  | some m =>
    have h' := List.max?_eq_some_iff'.mp h
    have : i ≤ m := h'.2 i hi
    simp only [nextId, h]
    omega

theorem nextId_not_mem (ids : List Nat) : nextId ids ∉ ids :=
  fun h => absurd (lt_nextId ids _ h) (lt_irrefl _)

theorem nextId_eq_one_of_nil : nextId [] = 1 := rfl

theorem nextId_eq_max_succ (ids : List Nat) (h : ids ≠ []) :
    ∃ i ∈ ids, nextId ids = i + 1 := by
  cases hm : ids.max? with
  | none => rw [List.max?_eq_none_iff] at hm; exact absurd hm h
  | some m =>
    have h' := List.max?_eq_some_iff'.mp hm
    exact ⟨m, h'.1, by simp [nextId, hm]⟩

/-- C4: both id generators return one more than the maximum id currently in
their own collection (`1` on an empty collection), recomputed from current
data; in the scenario add, add, delete the todo with id 1, add, the three
adds are assigned ids 1, 2, 3 and the freed id 1 is not reused. -/
theorem C4_next_id_assignment :
    (∀ s : StudyData,
      (∀ t ∈ s.todos, t.id < s.get_next_todo_id) ∧
      (s.todos = [] → s.get_next_todo_id = 1) ∧
      (s.todos ≠ [] → ∃ t ∈ s.todos, s.get_next_todo_id = t.id + 1)) ∧
    (∀ s : StudyData,
      (∀ r ∈ s.reminders, r.id < s.get_next_reminder_id) ∧
      (s.reminders = [] → s.get_next_reminder_id = 1) ∧
      (s.reminders ≠ [] → ∃ r ∈ s.reminders, s.get_next_reminder_id = r.id + 1)) ∧
    (∀ n1 n2 n3 : String,
      (emptyStudyData.add_todo "buy milk" n1).1.todos = [⟨1, "buy milk", false, n1⟩] ∧
      ((emptyStudyData.add_todo "buy milk" n1).1.add_todo "read book" n2).1.todos.map (·.id)
        = [1, 2] ∧
      (((emptyStudyData.add_todo "buy milk" n1).1.add_todo "read book" n2).1.delete_todo
        1).1.todos.map (·.id) = [2] ∧
      ((((emptyStudyData.add_todo "buy milk" n1).1.add_todo "read book" n2).1.delete_todo
        1).1.add_todo "x" n3).1.todos.map (·.id) = [2, 3]) := by
  refine ⟨?_, ?_, ?_⟩
  · intro s
    refine ⟨?_, ?_, ?_⟩
    · intro t ht
      exact lt_nextId _ _ (List.mem_map_of_mem (·.id) ht)
    · intro h; simp [StudyData.get_next_todo_id, h, nextId]
    · intro h
      have hne : s.todos.map (·.id) ≠ [] := by simpa using h
      obtain ⟨i, hi, hnext⟩ := nextId_eq_max_succ _ hne
      obtain ⟨t, ht, rfl⟩ := List.mem_map.mp hi
      exact ⟨t, ht, hnext⟩
  · intro s
    refine ⟨?_, ?_, ?_⟩
    · intro r hr
      exact lt_nextId _ _ (List.mem_map_of_mem (·.id) hr)
    · intro h; simp [StudyData.get_next_reminder_id, h, nextId]
    · intro h
      have hne : s.reminders.map (·.id) ≠ [] := by simpa using h
      obtain ⟨i, hi, hnext⟩ := nextId_eq_max_succ _ hne
      obtain ⟨r, hr, rfl⟩ := List.mem_map.mp hi
      exact ⟨r, hr, hnext⟩
  · intro n1 n2 n3
    exact ⟨rfl, rfl, rfl, rfl⟩

/-- Witness for C4: on a store holding a single todo of id 5, the next todo
id is the member id 5 plus one. -/
theorem C4_next_id_assignment_witness :
    (⟨[], [⟨5, "a", false, "x"⟩], []⟩ : StudyData).todos ≠ [] ∧
    (⟨5, "a", false, "x"⟩ : Todo) ∈ (⟨[], [⟨5, "a", false, "x"⟩], []⟩ : StudyData).todos ∧
    (⟨[], [⟨5, "a", false, "x"⟩], []⟩ : StudyData).get_next_todo_id = 6 := by
  refine ⟨by simp, by simp, ?_⟩
  have h := (C4_next_id_assignment.1 ⟨[], [⟨5, "a", false, "x"⟩], []⟩).1
    ⟨5, "a", false, "x"⟩ (by simp)
  have h2 := (C4_next_id_assignment.1 ⟨[], [⟨5, "a", false, "x"⟩], []⟩).2.2 (by simp)
  obtain ⟨t, ht, hnext⟩ := h2
  simp at ht
  rw [hnext, ht]

theorem modifyFirst_of_forall_neg {α : Type} (p : α → Bool) (f : α → α) (l : List α)
    (h : ∀ x ∈ l, p x = false) : modifyFirst p f l = (l, none) := by
  induction l with
  | nil => rfl
  | cons x xs ih =>
    have hx := h x (by simp)
    simp [modifyFirst, hx, ih (fun y hy => h y (by simp [hy]))]

theorem modifyFirst_append {α : Type} (p : α → Bool) (f : α → α) (l1 l2 : List α) (x : α)
    (h1 : ∀ u ∈ l1, p u = false) (hx : p x = true) :
    modifyFirst p f (l1 ++ x :: l2) = (l1 ++ f x :: l2, some (f x)) := by
  induction l1 with
  | nil => simp [modifyFirst, hx]
  | cons u us ih =>
    have hu := h1 u (by simp)
    simp [modifyFirst, hu, ih (fun y hy => h1 y (by simp [hy]))]

theorem map_modifyFirst {α γ : Type} (p : α → Bool) (f : α → α) (g : α → γ)
    (hf : ∀ x, p x = true → g (f x) = g x) (l : List α) :
    ((modifyFirst p f l).1).map g = l.map g := by
  induction l with
  | nil => rfl
  | cons x xs ih =>
    by_cases hx : p x = true
    · simp [modifyFirst, hx, hf x hx]
    · simp [modifyFirst, hx, ih]

theorem modifyFirst_key_nodup {α : Type} (key : α → Nat) (k : Nat) (f : α → α)
    (l : List α) (hnd : (l.map key).Nodup) (t : α) (ht : t ∈ l) (hk : key t = k) :
    modifyFirst (fun u => key u == k) f l =
      (l.map (fun u => if key u = k then f u else u), some (f t)) := by
  induction l with
  | nil => cases ht
  | cons x xs ih =>
    simp only [List.map_cons, List.nodup_cons] at hnd
    by_cases hx : key x = k
    · have ht' : t = x := by
        rcases List.mem_cons.mp ht with h | h
        · exact h
        · have : key t ∈ xs.map key := List.mem_map_of_mem key h
          rw [hk, ← hx] at this
          exact absurd this hnd.1
      have hrest : ∀ u ∈ xs, ¬key u = k := by
        intro u hu hku
        have : key u ∈ xs.map key := List.mem_map_of_mem key hu
        rw [hku, ← hx] at this
        exact absurd this hnd.1
      have hmap : xs.map (fun u => if key u = k then f u else u) = xs := by
        have heq : ∀ u ∈ xs, (if key u = k then f u else u) = id u :=
          fun u hu => if_neg (hrest u hu)
        rw [List.map_congr_left heq, List.map_id]
      simp [modifyFirst, hx, hmap, ht']
    · have ht' : t ∈ xs := by
        rcases List.mem_cons.mp ht with h | h
        · rw [h] at hk; exact absurd hk hx
        · exact h
      have hih := ih hnd.2 ht'
      simp [modifyFirst, hx, hih]

/-- C6: `toggle_todo` flips `completed` on the todo carrying the id when one
exists and returns the flipped value; with no match it leaves the store
unchanged and returns `false`; either way it saves.  `toggle_reminder` has
the same contract over `is_completed`. -/
theorem C6_toggle_contract (s : StudyData) (id : Nat)
    (hnd : (s.todos.map (·.id)).Nodup) (hnd2 : (s.reminders.map (·.id)).Nodup) :
    ((s.toggle_todo id).2.2 = true ∧
      ((∀ t ∈ s.todos, t.id ≠ id) →
        (s.toggle_todo id).1 = s ∧ (s.toggle_todo id).2.1 = false) ∧
      (∀ t ∈ s.todos, t.id = id →
        (s.toggle_todo id).1.todos =
          s.todos.map (fun u => if u.id = id then { u with completed := !u.completed } else u) ∧
        (s.toggle_todo id).2.1 = !t.completed)) ∧
    ((s.toggle_reminder id).2.2 = true ∧
      ((∀ r ∈ s.reminders, r.id ≠ id) →
        (s.toggle_reminder id).1 = s ∧ (s.toggle_reminder id).2.1 = false) ∧
      (∀ r ∈ s.reminders, r.id = id →
        (s.toggle_reminder id).1.reminders =
          s.reminders.map
            (fun u => if u.id = id then { u with is_completed := !u.is_completed } else u) ∧
        (s.toggle_reminder id).2.1 = !r.is_completed)) := by
  constructor
  · refine ⟨rfl, ?_, ?_⟩
    · intro hno
      have h := modifyFirst_of_forall_neg (fun t : Todo => t.id == id)
        (fun t => { t with completed := !t.completed }) s.todos
        (fun x hx => by simpa using hno x hx)
      constructor
      · show ({ s with todos := _ } : StudyData) = s
        rw [h]
      · simp [StudyData.toggle_todo, h]
    · intro t ht htid
      have h := modifyFirst_key_nodup (·.id) id
        (fun t => { t with completed := !t.completed }) s.todos hnd t ht htid
      constructor
      · show (modifyFirst _ _ s.todos).1 = _
        rw [h]
      · simp [StudyData.toggle_todo, h]
  · refine ⟨rfl, ?_, ?_⟩
    · intro hno
      have h := modifyFirst_of_forall_neg (fun r : Reminder => r.id == id)
        (fun r => { r with is_completed := !r.is_completed }) s.reminders
        (fun x hx => by simpa using hno x hx)
      constructor
      · show ({ s with reminders := _ } : StudyData) = s
        rw [h]
      · simp [StudyData.toggle_reminder, h]
    · intro r hr hrid
      have h := modifyFirst_key_nodup (·.id) id
        (fun r => { r with is_completed := !r.is_completed }) s.reminders hnd2 r hr hrid
      constructor
      · show (modifyFirst _ _ s.reminders).1 = _
        rw [h]
      · simp [StudyData.toggle_reminder, h]

/-- Witness for C6: toggling id 1 on a store with one incomplete todo of id 1
reports `true`, and toggling the absent id 9 leaves the store unchanged. -/
theorem C6_toggle_contract_witness :
    (((⟨[], [⟨1, "a", false, "x"⟩], []⟩ : StudyData).todos.map (·.id)).Nodup ∧
      ((⟨[], [⟨1, "a", false, "x"⟩], []⟩ : StudyData).reminders.map (·.id)).Nodup ∧
      (⟨1, "a", false, "x"⟩ : Todo) ∈ (⟨[], [⟨1, "a", false, "x"⟩], []⟩ : StudyData).todos) ∧
    ((⟨[], [⟨1, "a", false, "x"⟩], []⟩ : StudyData).toggle_todo 1).2.1 = true ∧
    ((⟨[], [⟨1, "a", false, "x"⟩], []⟩ : StudyData).toggle_todo 9).1 =
      ⟨[], [⟨1, "a", false, "x"⟩], []⟩ := by
  refine ⟨⟨by simp, by simp, by simp⟩, ?_, ?_⟩
  · have h := (C6_toggle_contract ⟨[], [⟨1, "a", false, "x"⟩], []⟩ 1
      (by simp) (by simp)).1.2.2 ⟨1, "a", false, "x"⟩ (by simp) rfl
    exact h.2
  · have h := (C6_toggle_contract ⟨[], [⟨1, "a", false, "x"⟩], []⟩ 9
      (by simp) (by simp)).1.2.1 (by intro t ht; simp at ht; simp [ht])
    exact h.1

/-- C8: `update_reminder` replaces exactly title, description, due date and
notification periods on the reminder carrying the id (its id, `created_at`
and `is_completed`, and all other reminders, are untouched by the field
update) and saves; with no match it returns the store unchanged without
saving.  `update_todo_text` does the same for a todo's `text`. -/
theorem C8_update_frame (s : StudyData) (id : Nat) (title : String)
    (descr : Option String) (due : String) (nps : List NotificationPeriod)
    (txt : String) (hnd : (s.reminders.map (·.id)).Nodup)
    (hnd2 : (s.todos.map (·.id)).Nodup) :
    ((∀ r ∈ s.reminders, r.id ≠ id) →
      s.update_reminder id title descr due nps = (s, false)) ∧
    (∀ r ∈ s.reminders, r.id = id →
      (s.update_reminder id title descr due nps).1.reminders =
        s.reminders.map (fun u => if u.id = id then
          { u with title := title, description := descr, due_date := due,
                   notification_periods := nps } else u) ∧
      (s.update_reminder id title descr due nps).2 = true) ∧
    ((∀ t ∈ s.todos, t.id ≠ id) → s.update_todo_text id txt = (s, false)) ∧
    (∀ t ∈ s.todos, t.id = id →
      (s.update_todo_text id txt).1.todos =
        s.todos.map (fun u => if u.id = id then { u with text := txt } else u) ∧
      (s.update_todo_text id txt).2 = true) := by
  refine ⟨?_, ?_, ?_, ?_⟩
  · intro hno
    have h := modifyFirst_of_forall_neg (fun x : Reminder => x.id == id)
      (fun x => { x with title := title, description := descr, due_date := due,
                         notification_periods := nps }) s.reminders
      (fun x hx => by simpa using hno x hx)
    simp only [StudyData.update_reminder, h]
    rfl
  · intro r hr hrid
    have h := modifyFirst_key_nodup (·.id) id
      (fun x => { x with title := title, description := descr, due_date := due,
                         notification_periods := nps }) s.reminders hnd r hr hrid
    constructor
    · show (modifyFirst _ _ s.reminders).1 = _
      rw [h]
    · simp [StudyData.update_reminder, h]
  · intro hno
    have h := modifyFirst_of_forall_neg (fun t : Todo => t.id == id)
      (fun t => { t with text := txt }) s.todos
      (fun x hx => by simpa using hno x hx)
    simp only [StudyData.update_todo_text, h]
    rfl
  · intro t ht htid
    have h := modifyFirst_key_nodup (·.id) id
      (fun t => { t with text := txt }) s.todos hnd2 t ht htid
    constructor
    · show (modifyFirst _ _ s.todos).1 = _
      rw [h]
    · simp [StudyData.update_todo_text, h]

/-- Witness for C8: updating reminder id 1 rewrites its four fields and
keeps `created_at` and `is_completed`; updating the absent id 9 reports no
save. -/
theorem C8_update_frame_witness :
    (((⟨[], [], [⟨1, "t", none, "2024-01-01", "c", [], false⟩]⟩ :
        StudyData).reminders.map (·.id)).Nodup ∧
      (⟨1, "t", none, "2024-01-01", "c", [], false⟩ : Reminder) ∈
        (⟨[], [], [⟨1, "t", none, "2024-01-01", "c", [], false⟩]⟩ :
          StudyData).reminders) ∧
    ((⟨[], [], [⟨1, "t", none, "2024-01-01", "c", [], false⟩]⟩ :
        StudyData).update_reminder 1 "u" (some "d") "2025-02-02"
        [NotificationPeriod.OneDay]).1.reminders =
      [⟨1, "u", some "d", "2025-02-02", "c", [NotificationPeriod.OneDay], false⟩] ∧
    ((⟨[], [], [⟨1, "t", none, "2024-01-01", "c", [], false⟩]⟩ :
        StudyData).update_reminder 9 "u" none "2025-02-02" []) =
      (⟨[], [], [⟨1, "t", none, "2024-01-01", "c", [], false⟩]⟩, false) := by
  refine ⟨⟨by simp, by simp⟩, ?_, ?_⟩
  · have h := (C8_update_frame ⟨[], [], [⟨1, "t", none, "2024-01-01", "c", [], false⟩]⟩
      1 "u" (some "d") "2025-02-02" [NotificationPeriod.OneDay] "unused"
      (by simp) (by simp)).2.1 ⟨1, "t", none, "2024-01-01", "c", [], false⟩ (by simp) rfl
    rw [h.1]
    rfl
  · exact (C8_update_frame ⟨[], [], [⟨1, "t", none, "2024-01-01", "c", [], false⟩]⟩
      9 "u" none "2025-02-02" [] "unused" (by simp) (by simp)).1
      (by intro r hr; simp at hr; simp [hr])

theorem nodup_map_filter {α : Type} (g : α → Nat) (p : α → Bool) (l : List α)
    (h : (l.map g).Nodup) : ((l.filter p).map g).Nodup :=
  ((List.filter_sublist l).map g).nodup h

/-- C7: starting from a store whose todo ids are pairwise distinct and whose
reminder ids are pairwise distinct, every public mutating operation
preserves both per-collection uniqueness invariants. -/
theorem C7_id_uniqueness_preserved (s : StudyData) (h : IdInvariant s) :
    (∀ (d : String) (m : ℚ) (descr : Option String),
      IdInvariant (s.add_session d m descr).1) ∧
    (∀ txt now : String, IdInvariant (s.add_todo txt now).1) ∧
    (∀ id : Nat, IdInvariant (s.toggle_todo id).1) ∧
    (∀ (id : Nat) (txt : String), IdInvariant (s.update_todo_text id txt).1) ∧
    (∀ id : Nat, IdInvariant (s.delete_todo id).1) ∧
    IdInvariant s.clear_todos.1 ∧
    IdInvariant s.clear_completed_todos.1 ∧
    (∀ (ti : String) (descr : Option String) (due : String)
      (nps : List NotificationPeriod) (now : String),
      IdInvariant (s.add_reminder ti descr due nps now).1) ∧
    (∀ (id : Nat) (ti : String) (descr : Option String) (due : String)
      (nps : List NotificationPeriod),
      IdInvariant (s.update_reminder id ti descr due nps).1) ∧
    (∀ id : Nat, IdInvariant (s.toggle_reminder id).1) ∧
    (∀ id : Nat, IdInvariant (s.delete_reminder id).1) ∧
    IdInvariant s.clear_reminders.1 ∧
    IdInvariant s.clear_completed_reminders.1 := by
  obtain ⟨h1, h2⟩ := h
  refine ⟨?_, ?_, ?_, ?_, ?_, ?_, ?_, ?_, ?_, ?_, ?_, ?_, ?_⟩
  · intro d m descr
    by_cases hm : m ≤ 0 <;> simp [StudyData.add_session, hm] <;> exact ⟨h1, h2⟩
  · intro txt now
    refine ⟨?_, h2⟩
    show ((s.todos ++ [(⟨s.get_next_todo_id, txt, false, now⟩ : Todo)]).map (·.id)).Nodup
    rw [List.map_append, List.nodup_append]
    refine ⟨h1, by simp, ?_⟩
    intro i hi hi2
    simp only [List.map_cons, List.map_nil, List.mem_cons, List.not_mem_nil,
      or_false] at hi2
    rw [hi2] at hi
    exact nextId_not_mem _ hi
  · intro id
    refine ⟨?_, h2⟩
    have hm := map_modifyFirst (fun t : Todo => t.id == id)
      (fun t => { t with completed := !t.completed }) (fun t : Todo => t.id)
      (fun x _ => rfl) s.todos
    show ((modifyFirst _ _ s.todos).1.map (·.id)).Nodup
    rw [hm]
    exact h1
  · intro id txt
    refine ⟨?_, h2⟩
    have hm := map_modifyFirst (fun t : Todo => t.id == id)
      (fun t => { t with text := txt }) (fun t : Todo => t.id)
      (fun x _ => rfl) s.todos
    show ((modifyFirst _ _ s.todos).1.map (·.id)).Nodup
    rw [hm]
    exact h1
  · intro id
    exact ⟨nodup_map_filter _ _ _ h1, h2⟩
  · exact ⟨by simp [StudyData.clear_todos], h2⟩
  · exact ⟨nodup_map_filter _ _ _ h1, h2⟩
  · intro ti descr due nps now
    refine ⟨h1, ?_⟩
    show ((s.reminders ++
      [(⟨s.get_next_reminder_id, ti, descr, due, now, nps, false⟩ : Reminder)]).map
        (·.id)).Nodup
    rw [List.map_append, List.nodup_append]
    refine ⟨h2, by simp, ?_⟩
    intro i hi hi2
    simp only [List.map_cons, List.map_nil, List.mem_cons, List.not_mem_nil,
      or_false] at hi2
    rw [hi2] at hi
    exact nextId_not_mem _ hi
  · intro id ti descr due nps
    refine ⟨h1, ?_⟩
    have hm := map_modifyFirst (fun x : Reminder => x.id == id)
      (fun x => { x with title := ti, description := descr, due_date := due,
                         notification_periods := nps }) (fun x : Reminder => x.id)
      (fun x _ => rfl) s.reminders
    show ((modifyFirst _ _ s.reminders).1.map (·.id)).Nodup
    rw [hm]
    exact h2
  · intro id
    refine ⟨h1, ?_⟩
    have hm := map_modifyFirst (fun x : Reminder => x.id == id)
      (fun x => { x with is_completed := !x.is_completed }) (fun x : Reminder => x.id)
      (fun x _ => rfl) s.reminders
    show ((modifyFirst _ _ s.reminders).1.map (·.id)).Nodup
    rw [hm]
    exact h2
  · intro id
    exact ⟨h1, nodup_map_filter _ _ _ h2⟩
  · exact ⟨h1, by simp [StudyData.clear_reminders]⟩
  · exact ⟨h1, nodup_map_filter _ _ _ h2⟩

/-- Witness for C7: from a store satisfying the invariant, adding a todo
keeps the invariant. -/
theorem C7_id_uniqueness_preserved_witness :
    IdInvariant ⟨[], [⟨1, "a", false, "x"⟩, ⟨2, "b", true, "y"⟩], []⟩ ∧
    IdInvariant ((⟨[], [⟨1, "a", false, "x"⟩, ⟨2, "b", true, "y"⟩], []⟩ :
      StudyData).add_todo "c" "z").1 :=
  ⟨⟨by simp, by simp⟩,
    (C7_id_uniqueness_preserved ⟨[], [⟨1, "a", false, "x"⟩, ⟨2, "b", true, "y"⟩], []⟩
      ⟨by simp, by simp⟩).2.1 "c" "z"⟩

/-- C10: deletion removes every record carrying the id — also when a loaded
store holds duplicate ids — keeping the other records' values and relative
order, while the toggles rewrite only the first record whose id matches;
both for todos and for reminders. -/
theorem C10_delete_all_toggle_first (s : StudyData) (id : Nat) :
    (∀ t ∈ (s.delete_todo id).1.todos, t.id ≠ id) ∧
    List.Sublist (s.delete_todo id).1.todos s.todos ∧
    (∀ t : Todo, t.id ≠ id → (s.delete_todo id).1.todos.count t = s.todos.count t) ∧
    (∀ (l1 l2 : List Todo) (t : Todo), s.todos = l1 ++ t :: l2 →
      (∀ u ∈ l1, u.id ≠ id) → t.id = id →
      (s.toggle_todo id).1.todos = l1 ++ { t with completed := !t.completed } :: l2) ∧
    (∀ r ∈ (s.delete_reminder id).1.reminders, r.id ≠ id) ∧
    List.Sublist (s.delete_reminder id).1.reminders s.reminders ∧
    (∀ r : Reminder, r.id ≠ id →
      (s.delete_reminder id).1.reminders.count r = s.reminders.count r) ∧
    (∀ (l1 l2 : List Reminder) (r : Reminder), s.reminders = l1 ++ r :: l2 →
      (∀ u ∈ l1, u.id ≠ id) → r.id = id →
      (s.toggle_reminder id).1.reminders =
        l1 ++ { r with is_completed := !r.is_completed } :: l2) := by
  refine ⟨?_, ?_, ?_, ?_, ?_, ?_, ?_, ?_⟩
  · intro t ht
    have := (List.mem_filter.mp ht).2
    simpa using this
  · exact List.filter_sublist s.todos
  · intro t htid
    exact List.count_filter (by simpa using htid)
  · intro l1 l2 t hdec hno htid
    have h := modifyFirst_append (fun u : Todo => u.id == id)
      (fun u => { u with completed := !u.completed }) l1 l2 t
      (fun u hu => by simpa using hno u hu) (by simpa using htid)
    show (modifyFirst _ _ s.todos).1 = _
    rw [hdec, h]
  · intro r hr
    have := (List.mem_filter.mp hr).2
    simpa using this
  · exact List.filter_sublist s.reminders
  · intro r hrid
    exact List.count_filter (by simpa using hrid)
  · intro l1 l2 r hdec hno hrid
    have h := modifyFirst_append (fun u : Reminder => u.id == id)
      (fun u => { u with is_completed := !u.is_completed }) l1 l2 r
      (fun u hu => by simpa using hno u hu) (by simpa using hrid)
    show (modifyFirst _ _ s.reminders).1 = _
    rw [hdec, h]

/-- Witness for C10: with two todos both carrying id 1, deletion removes
both while the toggle flips only the first. -/
theorem C10_delete_all_toggle_first_witness :
    ((⟨[], [⟨1, "a", false, "x"⟩, ⟨1, "b", false, "y"⟩], []⟩ :
        StudyData).todos = [] ++ ⟨1, "a", false, "x"⟩ :: [⟨1, "b", false, "y"⟩]) ∧
    ((⟨[], [⟨1, "a", false, "x"⟩, ⟨1, "b", false, "y"⟩], []⟩ :
        StudyData).delete_todo 1).1.todos = [] ∧
    ((⟨[], [⟨1, "a", false, "x"⟩, ⟨1, "b", false, "y"⟩], []⟩ :
        StudyData).toggle_todo 1).1.todos =
      [⟨1, "a", true, "x"⟩, ⟨1, "b", false, "y"⟩] := by
  refine ⟨rfl, rfl, ?_⟩
  have h := (C10_delete_all_toggle_first
    ⟨[], [⟨1, "a", false, "x"⟩, ⟨1, "b", false, "y"⟩], []⟩ 1).2.2.2.1
    [] [⟨1, "b", false, "y"⟩] ⟨1, "a", false, "x"⟩ rfl (by simp) rfl
  rw [h]
  rfl

theorem lastN_eq_filter_sum (today : Date) (days : Int) :
    ∀ l : List StudySession,
      (l.filterMap (fun x =>
        match parseDate x.date with
        | some d => if daysFromCivil today - daysFromCivil d < days then some x.minutes else none
        | none => none)).sum =
      ((l.filter (fun x =>
        match parseDate x.date with
        | some d => decide (daysFromCivil today - daysFromCivil d < days)
        | none => false)).map (·.minutes)).sum := by
  intro l
  induction l with
  | nil => rfl
  | cons x xs ih =>
    simp only [List.filterMap_cons, List.filter_cons]
    cases hp : parseDate x.date with
    | none => simpa using ih
    | some d =>
      by_cases hlt : daysFromCivil today - daysFromCivil d < days
      · simp [hlt, ih]
      · simp [hlt, ih]

/-- C2 counterexample: with `days = 0` the claim demands an empty sum, but a
session dated one day after `today` satisfies the source's window test
`(today - date).num_days() < days` (the difference is `-1`), so the result
is its 5 minutes, not 0. -/
theorem C2_last_n_days_counterexample :
    StudyData.get_last_n_days_minutes ⟨[⟨"2024-01-02", 5, none⟩], [], []⟩
      ⟨2024, 1, 1⟩ 0 ≠ 0 := by
  have hp : parseDate "2024-01-02" = some ⟨2024, 1, 2⟩ := by decide
  have hlt : daysFromCivil ⟨2024, 1, 1⟩ - daysFromCivil ⟨2024, 1, 2⟩ < (0 : Int) := by decide
  have h : StudyData.get_last_n_days_minutes ⟨[⟨"2024-01-02", 5, none⟩], [], []⟩
      ⟨2024, 1, 1⟩ 0 = 5 := by
    rw [StudyData.get_last_n_days_minutes]
    simp only [List.filterMap_cons, List.filterMap_nil, hp]
    rw [if_pos hlt]
    simp
  rw [h]
  norm_num

/-- C2 (amended): `get_last_n_days_minutes(days)` sums exactly the minutes of
sessions whose date parses as a `YYYY-MM-DD` calendar date and whose
`today − date` day-difference is strictly less than `days`, excluding
sessions with an unparseable date; when `days` is 0 or negative the result
is the empty sum 0 provided no parseable session date lies in the future of
`today` (future-dated sessions still enter the window). -/
theorem C2_last_n_days_amended (s : StudyData) (today : Date) (days : Int) :
    s.get_last_n_days_minutes today days =
      ((s.sessions.filter (fun x =>
        match parseDate x.date with
        | some d => decide (daysFromCivil today - daysFromCivil d < days)
        | none => false)).map (·.minutes)).sum ∧
    (days ≤ 0 →
      (∀ x ∈ s.sessions, ∀ d : Date, parseDate x.date = some d →
        daysFromCivil d ≤ daysFromCivil today) →
      s.get_last_n_days_minutes today days = 0) := by
  constructor
  · exact lastN_eq_filter_sum today days s.sessions
  · intro hdays hpast
    rw [StudyData.get_last_n_days_minutes]
    have hnone : ∀ x ∈ s.sessions, (match parseDate x.date with
        | some d => if daysFromCivil today - daysFromCivil d < days then some x.minutes else none
        | none => none) = (none : Option ℚ) := by
      intro x hx
      cases hp : parseDate x.date with
      | none => rfl
      | some d =>
        have hle := hpast x hx d hp
        have : ¬ daysFromCivil today - daysFromCivil d < days := by omega
        simp [this]
    rw [List.filterMap_eq_nil_iff.mpr hnone]
    rfl

/-- Witness for C2 (amended): with `days = 0`, one session dated in the past
and one with an unparseable date, the sum is empty. -/
theorem C2_last_n_days_amended_witness :
    ((0 : Int) ≤ 0) ∧
    StudyData.get_last_n_days_minutes
      ⟨[⟨"2023-12-31", 7, none⟩, ⟨"garbage", 3, none⟩], [], []⟩ ⟨2024, 1, 1⟩ 0 = 0 := by
  refine ⟨le_refl 0, ?_⟩
  refine (C2_last_n_days_amended _ ⟨2024, 1, 1⟩ 0).2 (le_refl 0) ?_
  intro x hx d hd
  simp only [List.mem_cons, List.not_mem_nil, or_false] at hx
  rcases hx with rfl | rfl
  · have hp : parseDate "2023-12-31" = some ⟨2023, 12, 31⟩ := by decide
    rw [hp] at hd
    cases hd
    decide
  · have hp : parseDate "garbage" = (none : Option Date) := by decide
    rw [hp] at hd
    cases hd

theorem decodeOptStr_encode (o : Option String) : decodeOptStr (encodeOptStr o) = some o := by
  cases o <;> rfl

theorem decodeStudySession_encode (x : StudySession) :
    decodeStudySession (encodeStudySession x) = some x := by
  cases x with | mk d m descr => cases descr <;> rfl

theorem decodeNotificationPeriod_encode (p : NotificationPeriod) :
    decodeNotificationPeriod (encodeNotificationPeriod p) = some p := by
  cases p <;> rfl

theorem decodeTodo_encode (t : Todo) : decodeTodo (encodeTodo t) = some t := by
  cases t; rfl

theorem decodeListWith_encode {α : Type} (enc : α → Json) (dec : Json → Option α)
    (h : ∀ x, dec (enc x) = some x) :
    ∀ l : List α, decodeListWith dec (l.map enc) = some l := by
  intro l
  induction l with
  | nil => rfl
  | cons x xs ih => simp only [List.map_cons, decodeListWith, h, ih]

theorem decodeReminder_encode (r : Reminder) :
    decodeReminder (encodeReminder r) = some r := by
  cases r with | mk i ti descr dd ca nps ic =>
  have hl := decodeListWith_encode encodeNotificationPeriod decodeNotificationPeriod
    decodeNotificationPeriod_encode nps
  cases descr <;>
    simp [decodeReminder, encodeReminder, getField, List.lookup, decodeOptStr,
      encodeOptStr, hl]

/-- C5: decoding the serialized store returns the store exactly — for every
store, hence for absent optional descriptions, empty collections, and every
`notification_periods` variant including the custom day count. -/
theorem C5_save_load_roundtrip (s : StudyData) :
    decodeStudyData (encodeStudyData s) = some s := by
  cases s with | mk ses ts rs =>
  have h1 := decodeListWith_encode encodeStudySession decodeStudySession
    decodeStudySession_encode ses
  have h2 := decodeListWith_encode encodeTodo decodeTodo decodeTodo_encode ts
  have h3 := decodeListWith_encode encodeReminder decodeReminder decodeReminder_encode rs
  simp [decodeStudyData, encodeStudyData, getField, List.lookup, h1, h2, h3]

end StudyTracker
